import Mathlib

/-!
Verification of the route-compiler core of `rakuda` (`builder.go`).

The Go source is shallowly embedded: handlers are an abstract type `H`
(the core never inspects handler bodies), a middleware is a function
`H → H`, and the mutable `Builder`/`node` API is rendered as pure
state-passing functions.  This is faithful because each `node` is
exclusively owned by its parent and a configure closure only receives
the child `Builder`, so Go's in-place mutation of the tree coincides
with the functional update.  `Build`'s internal `registered` set and the
`ServeMux` route table are threaded explicitly as `BuildSt`.
-/

namespace Rakuda

/-! ### Go `path` package: `Clean` and `Join`

`Build` resolves path prefixes with Go's `path.Join`, which concatenates
with a slash and then applies `path.Clean`.  `cleanSegs` is the segment
loop of `Clean`: empty and `.` segments are dropped, `..` pops the last
kept segment when possible, cannot pop past a kept `..`, and is dropped
at the root of a rooted path. -/

def cleanSegs (rooted : Bool) : List String → List String → List String
  | [], acc => acc.reverse
  | s :: rest, acc =>
    if s = "" ∨ s = "." then cleanSegs rooted rest acc
    else if s = ".." then
      match acc with
      | [] => if rooted then cleanSegs rooted rest [] else cleanSegs rooted rest [".."]
      | t :: acc2 =>
        if t = ".." then cleanSegs rooted rest (".." :: acc)
        else cleanSegs rooted rest acc2
    else cleanSegs rooted rest (s :: acc)

/-- Split on the slash character (Go `Clean` iterates the path's
slash-separated elements). -/
def splitSlashAux : List Char → List Char → List String
  | [], cur => [String.mk cur.reverse]
  | c :: rest, cur =>
    if c = '/' then String.mk cur.reverse :: splitSlashAux rest []
    else splitSlashAux rest (c :: cur)

def splitSlash (p : String) : List String :=
  splitSlashAux p.data []

def joinSlash : List String → String
  | [] => ""
  | [s] => s
  | s :: rest => s ++ "/" ++ joinSlash rest

def isRooted (p : String) : Bool :=
  match p.data with
  | [] => false
  | c :: _ => c = '/'

/-- Go `path.Clean`. -/
def pathClean (p : String) : String :=
  if p = "" then "."
  else
    let rooted := isRooted p
    let segs := cleanSegs rooted (splitSlash p) []
    let out := joinSlash segs
    if rooted then "/" ++ out
    else if out = "" then "." else out

/-- Go `path.Join` restricted to two elements, the only arity `Build` uses:
non-empty elements are joined with "/" and the result is `Clean`ed. -/
def pathJoin (a b : String) : String :=
  if a = "" ∧ b = "" then ""
  else if a = "" then pathClean b
  else if b = "" then pathClean a
  else pathClean (a ++ "/" ++ b)

/-! ### Data model (`builder.go`) -/

/-- `action`: the tagged union of `middlewareAction` and `handlerAction`. -/
inductive Action (H : Type) : Type where
  | mw (middleware : H → H)
  | handler (method : String) (pat : String) (h : H)

/-- `node`: a vertex of the configuration tree. -/
inductive Node (H : Type) : Type where
  | mk (pat : String) (actions : List (Action H)) (children : List (Node H))

variable {H : Type}

def Node.pat : Node H → String
  | .mk p _ _ => p

def Node.actions : Node H → List (Action H)
  | .mk _ as _ => as

def Node.children : Node H → List (Node H)
  | .mk _ _ cs => cs

/-- `Builder`: the node it is bound to, the optional custom 404 handler
(`none` = Go `nil`, meaning the built-in default JSON handler), and the
`OnConflict` policy (`none` = proceed, `some e` = abort with error `e`;
the Go default policy logs a warning and returns `nil`, which is the
constant-`none` policy here since logging is unobservable to routing). -/
structure Builder (H : Type) : Type where
  node : Node H
  notFoundHandler : Option H
  onConflict : String → Option String

/-- `NewBuilder`. -/
def newBuilder : Builder H :=
  { node := .mk "" [] [], notFoundHandler := none, onConflict := fun _ => none }

/-- `Builder.NotFound`. -/
def Builder.notFound (b : Builder H) (h : H) : Builder H :=
  { b with notFoundHandler := some h }

def nodeAddAction (n : Node H) (a : Action H) : Node H :=
  match n with
  | .mk p as cs => .mk p (as ++ [a]) cs

def nodeAddChild (n : Node H) (c : Node H) : Node H :=
  match n with
  | .mk p as cs => .mk p as (cs ++ [c])

/-- `Builder.registerHandler`: `/` is rewritten to `/\x7b$\x7d` so the root
does not act as a catch-all. -/
def Builder.registerHandler (b : Builder H) (method pat : String) (h : H) : Builder H :=
  let pat2 := if pat = "/" then "/\x7b$\x7d" else pat
  { b with node := nodeAddAction b.node (.handler method pat2 h) }

/-- `Builder.Use`. -/
def Builder.use (b : Builder H) (m : H → H) : Builder H :=
  { b with node := nodeAddAction b.node (.mw m) }

/-- `Builder.Get`. -/
def Builder.get (b : Builder H) (pat : String) (h : H) : Builder H :=
  b.registerHandler "GET" pat h

/-- `Builder.Post`. -/
def Builder.post (b : Builder H) (pat : String) (h : H) : Builder H :=
  b.registerHandler "POST" pat h

/-- `Builder.Put`. -/
def Builder.put (b : Builder H) (pat : String) (h : H) : Builder H :=
  b.registerHandler "PUT" pat h

/-- `Builder.Delete`. -/
def Builder.delete (b : Builder H) (pat : String) (h : H) : Builder H :=
  b.registerHandler "DELETE" pat h

/-- `Builder.Patch`. -/
def Builder.patch (b : Builder H) (pat : String) (h : H) : Builder H :=
  b.registerHandler "PATCH" pat h

/-- `Builder.Route`: a fresh child node carrying only the pattern, wrapped in
a fresh child `Builder` (Go leaves its `OnConflict`/`notFoundHandler` nil;
only the child's node is kept, everything else about the child `Builder`
is discarded). -/
def Builder.route (b : Builder H) (pat : String) (f : Builder H → Builder H) : Builder H :=
  let childB := f { node := .mk pat [] [], notFoundHandler := none, onConflict := fun _ => none }
  { b with node := nodeAddChild b.node childB.node }

/-- `Builder.Group`: like `Route` with an empty pattern. -/
def Builder.group (b : Builder H) (f : Builder H → Builder H) : Builder H :=
  let childB := f { node := .mk "" [] [], notFoundHandler := none, onConflict := fun _ => none }
  { b with node := nodeAddChild b.node childB.node }

/-! ### The compiler (`Builder.Build`) -/

/-- Phase 1 of `traverse`: the node's own middlewares, in declared order. -/
def nodeMiddlewares : List (Action H) → List (H → H)
  | [] => []
  | .mw m :: rest => m :: nodeMiddlewares rest
  | .handler _ _ _ :: rest => nodeMiddlewares rest

/-- The wrapping loop of `Build`: `for i := len(chain)-1; i >= 0; i--`,
`handler = chain[i](handler)`; the head of the chain ends up outermost. -/
def applyChain (chain : List (H → H)) (h : H) : H :=
  chain.foldr (fun m acc => m acc) h

/-- One entry of the `ServeMux` route table: `mux.Handle(method+" "+pat, h)`. -/
structure RouteEntry (H : Type) : Type where
  method : String
  pat : String
  handler : H
  deriving DecidableEq

def RouteEntry.key (e : RouteEntry H) : String :=
  e.method ++ " " ++ e.pat

/-- The state `Build` threads: the `registered` key set and the `mux` table. -/
structure BuildSt (H : Type) : Type where
  registered : List String
  routes : List (RouteEntry H)

/-- Phase 2 of `traverse`: register each handler action of a node, checking
`registered` and consulting the conflict policy. -/
def registerHandlers (policy : String → Option String) :
    List (Action H) → String → List (H → H) → BuildSt H → Except String (BuildSt H)
  | [], _, _, st => .ok st
  | .mw _ :: rest, pre, chain, st => registerHandlers policy rest pre chain st
  | .handler method pat h :: rest, pre, chain, st =>
    let fullPattern := pathJoin pre pat
    let key := method ++ " " ++ fullPattern
    if key ∈ st.registered then
      match policy key with
      | some e => .error e
      | none => registerHandlers policy rest pre chain st
    else
      registerHandlers policy rest pre chain
        { registered := key :: st.registered,
          routes := st.routes ++ [⟨method, fullPattern, applyChain chain h⟩] }

mutual

/-- The `traverse` closure of `Build`. -/
def traverseB (policy : String → Option String) :
    Node H → String → List (H → H) → BuildSt H → Except String (BuildSt H)
  | .mk _ actions children, pre, inherited, st =>
    let combined := inherited ++ nodeMiddlewares actions
    match registerHandlers policy actions pre combined st with
    | .error e => .error e
    | .ok st1 => traverseKids policy children pre combined st1

/-- Phase 3 of `traverse`: recurse into the children in order. -/
def traverseKids (policy : String → Option String) :
    List (Node H) → String → List (H → H) → BuildSt H → Except String (BuildSt H)
  | [], _, _, st => .ok st
  | c :: rest, pre, combined, st =>
    match traverseB policy c (pathJoin pre c.pat) combined st with
    | .error e => .error e
    | .ok st2 => traverseKids policy rest pre combined st2

end

/-- The `router` value `Build` returns: the route table and the fallback
(`none` = the built-in default not-found handler). -/
structure Dispatcher (H : Type) : Type where
  routes : List (RouteEntry H)
  fallback : Option H
  deriving DecidableEq

/-- `Builder.Build`. -/
def Builder.build (b : Builder H) : Except String (Dispatcher H) :=
  match traverseB b.onConflict b.node "/" [] ⟨[], []⟩ with
  | .error e => .error e
  | .ok st => .ok { routes := st.routes, fallback := b.notFoundHandler }

/-! ### The dispatcher (`router.ServeHTTP`)

Route matching is delegated to `net/http.ServeMux`, an external
collaborator.  `patMatches` models its documented Go 1.22 semantics for
the pattern forms this compiler emits — `path.Clean`ed literal patterns,
possibly ending in the end-of-URL wildcard `\x7b$\x7d` — on canonical
request paths: a literal pattern (no trailing slash) matches exactly
itself, and `prefix/\x7b$\x7d` matches exactly `prefix/`. -/

def patMatches (pat path : String) : Bool :=
  if List.isPrefixOf ['\x7d', '$', '\x7b', '/'] pat.data.reverse then
    path == String.mk (pat.data.take (pat.data.length - 3))
  else path == pat

def entryMatches (method path : String) (e : RouteEntry H) : Bool :=
  e.method == method && patMatches e.pat path

def findRoute (routes : List (RouteEntry H)) (method path : String) : Option (RouteEntry H) :=
  routes.find? (entryMatches method path)

/-- The observable outcome of one request: either a compiled route's final
handler runs, or the fallback does (`none` = built-in default 404). -/
inductive DispatchResult (H : Type) : Type where
  | route (h : H)
  | fallback (h : Option H)
  deriving DecidableEq

/-- `router.ServeHTTP`: if no pattern matches, the not-found handler runs,
otherwise the matched route's final handler does. -/
def Dispatcher.dispatch (d : Dispatcher H) (method path : String) : DispatchResult H :=
  match findRoute d.routes method path with
  | some e => .route e.handler
  | none => .fallback d.fallback

/-! ### Flat characterization of the traversal

`compiledEntries` lists, in depth-first pre-order, every handler action's
resolution `(method, fullPattern, wrapped handler)` — including entries
that a conflict will later discard.  The build result is then described
by scanning this flat list: `firstFatal` finds the first resolution whose
key was already seen and on which the policy errs, `dedupKeys` keeps the
first resolution per key, and `seenAfter` is the resulting key set. -/

def actionEntries : List (Action H) → String → List (H → H) → List (RouteEntry H)
  | [], _, _ => []
  | .mw _ :: rest, pre, chain => actionEntries rest pre chain
  | .handler method pat h :: rest, pre, chain =>
    ⟨method, pathJoin pre pat, applyChain chain h⟩ :: actionEntries rest pre chain

mutual

def compiledEntries : Node H → String → List (H → H) → List (RouteEntry H)
  | .mk _ actions children, pre, inherited =>
    let combined := inherited ++ nodeMiddlewares actions
    actionEntries actions pre combined ++ kidsEntries children pre combined

def kidsEntries : List (Node H) → String → List (H → H) → List (RouteEntry H)
  | [], _, _ => []
  | c :: rest, pre, combined =>
    compiledEntries c (pathJoin pre c.pat) combined ++ kidsEntries rest pre combined

end

def firstFatal (policy : String → Option String) :
    List (RouteEntry H) → List String → Option String
  | [], _ => none
  | e :: rest, seen =>
    if e.key ∈ seen then
      match policy e.key with
      | some err => some err
      | none => firstFatal policy rest seen
    else firstFatal policy rest (e.key :: seen)

def seenAfter : List (RouteEntry H) → List String → List String
  | [], seen => seen
  | e :: rest, seen => seenAfter rest (if e.key ∈ seen then seen else e.key :: seen)

def dedupKeys : List String → List (RouteEntry H) → List (RouteEntry H)
  | _, [] => []
  | seen, e :: rest =>
    if e.key ∈ seen then dedupKeys seen rest
    else e :: dedupKeys (e.key :: seen) rest

/-! ### Projections for order independence

Two action lists are interchangeable for `Build` when they have the same
middlewares in the same order and the same handler registrations in the
same order, whatever the interleaving of the two kinds. -/

def handlersOf : List (Action H) → List (String × String × H)
  | [] => []
  | .mw _ :: rest => handlersOf rest
  | .handler method pat h :: rest => (method, pat, h) :: handlersOf rest

/-- `registerHandlers` re-expressed on the handler projection alone. -/
def registerTriples (policy : String → Option String) :
    List (String × String × H) → String → List (H → H) → BuildSt H → Except String (BuildSt H)
  | [], _, _, st => .ok st
  | (method, pat, h) :: rest, pre, chain, st =>
    let fullPattern := pathJoin pre pat
    let key := method ++ " " ++ fullPattern
    if key ∈ st.registered then
      match policy key with
      | some e => .error e
      | none => registerTriples policy rest pre chain st
    else
      registerTriples policy rest pre chain
        { registered := key :: st.registered,
          routes := st.routes ++ [⟨method, fullPattern, applyChain chain h⟩] }

mutual

/-- Same tree shape, same per-node middleware sequence and same per-node
handler sequence; the interleaving of the two kinds may differ. -/
def NodeEquiv : Node H → Node H → Prop
  | .mk p as cs, .mk q bs ds =>
    p = q ∧ nodeMiddlewares as = nodeMiddlewares bs ∧ handlersOf as = handlersOf bs
      ∧ NodesEquiv cs ds

def NodesEquiv : List (Node H) → List (Node H) → Prop
  | [], [] => True
  | c :: cs, d :: ds => NodeEquiv c d ∧ NodesEquiv cs ds
  | _, _ => False

end

/-! ### Configuration sessions

A session interleaves configuration calls with `Build` calls on one root
`Builder`.  A `Build` step records the compiled dispatcher and — like the
Go code, which only reads the tree inside `Build` — leaves the `Builder`
untouched.  Scope configuration closures are functions of the child
`Builder` alone, as in `Builder.Route`/`Builder.Group`. -/

inductive Op (H : Type) : Type where
  | use (m : H → H)
  | handler (method pat : String) (h : H)
  | route (pat : String) (f : Builder H → Builder H)
  | group (f : Builder H → Builder H)
  | notFound (h : H)
  | policy (p : String → Option String)
  | build

/-- The mutation a configuration step performs (a `build` step performs
none: Go's `Build` writes only its locals `mux`, `registered`, `handler`). -/
def applyCfg : Op H → Builder H → Builder H
  | .use m, b => b.use m
  | .handler method pat h, b => b.registerHandler method pat h
  | .route pat f, b => b.route pat f
  | .group f, b => b.group f
  | .notFound h, b => b.notFound h
  | .policy p, b => { b with onConflict := p }
  | .build, b => b

/-- Run a session: final `Builder` state plus the `Build` results, in order. -/
def runOps : List (Op H) → Builder H → Builder H × List (Except String (Dispatcher H))
  | [], b => (b, [])
  | .build :: rest, b =>
    let r := runOps rest b
    (r.1, b.build :: r.2)
  | op :: rest, b => runOps rest (applyCfg op b)

/-! ### The spec's wrapping order, for comparison

The spec asserts the chain's *last* entry becomes the *outermost*
wrapper; this definition follows those words (apply the chain from its
first entry to its last, each new entry wrapping outside). -/

def applyChainLastOutermost (chain : List (H → H)) (h : H) : H :=
  chain.foldl (fun acc m => m acc) h

/-- A request-to-response handler on numbers, for observing middleware
order. -/
def mwDouble : (Nat → Nat) → (Nat → Nat) := fun hh x => hh (2 * x)

def mwInc : (Nat → Nat) → (Nat → Nat) := fun hh x => hh (x + 1)

/-- Observe a dispatch outcome by feeding the chosen handler a request
number; `none` when the fallback would run. -/
def dispatchApply (d : Dispatcher (Nat → Nat)) (method path : String) (x : Nat) : Option Nat :=
  match d.dispatch method path with
  | .route hh => some (hh x)
  | .fallback _ => none

/-! ## Lemmas -/

@[simp]
theorem RouteEntry.key_mk (method pat : String) (h : H) :
    (RouteEntry.mk method pat h).key = method ++ " " ++ pat := rfl

theorem seenAfter_append (xs ys : List (RouteEntry H)) (seen : List String) :
    seenAfter (xs ++ ys) seen = seenAfter ys (seenAfter xs seen) := by
  induction xs generalizing seen with
  | nil => simp [seenAfter]
  | cons e rest ih => simp [seenAfter, ih]

theorem firstFatal_append (policy : String → Option String) (xs ys : List (RouteEntry H))
    (seen : List String) :
    firstFatal policy (xs ++ ys) seen =
      match firstFatal policy xs seen with
      | some e => some e
      | none => firstFatal policy ys (seenAfter xs seen) := by
  induction xs generalizing seen with
  | nil => simp [firstFatal, seenAfter]
  | cons e rest ih =>
    by_cases hmem : e.key ∈ seen
    · cases hpol : policy e.key with
      | some err => simp [firstFatal, hmem, hpol]
      | none => simp [firstFatal, seenAfter, hmem, hpol, ih]
    · simp [firstFatal, seenAfter, hmem, ih]

theorem dedupKeys_append (xs ys : List (RouteEntry H)) (seen : List String) :
    dedupKeys seen (xs ++ ys) = dedupKeys seen xs ++ dedupKeys (seenAfter xs seen) ys := by
  induction xs generalizing seen with
  | nil => simp [dedupKeys, seenAfter]
  | cons e rest ih =>
    by_cases hmem : e.key ∈ seen
    · simp [dedupKeys, seenAfter, hmem, ih]
    · simp [dedupKeys, seenAfter, hmem, ih]

theorem registerHandlers_eq (policy : String → Option String) (acts : List (Action H))
    (pre : String) (chain : List (H → H)) (st : BuildSt H) :
    registerHandlers policy acts pre chain st =
      match firstFatal policy (actionEntries acts pre chain) st.registered with
      | some e => .error e
      | none =>
        .ok ⟨seenAfter (actionEntries acts pre chain) st.registered,
             st.routes ++ dedupKeys st.registered (actionEntries acts pre chain)⟩ := by
  induction acts generalizing st with
  | nil => simp [registerHandlers, actionEntries, firstFatal, seenAfter, dedupKeys]
  | cons a rest ih =>
    cases a with
    | mw m => simpa [registerHandlers, actionEntries] using ih st
    | handler method pat h =>
      by_cases hmem : (method ++ " " ++ pathJoin pre pat) ∈ st.registered
      · cases hpol : policy (method ++ " " ++ pathJoin pre pat) with
        | some err =>
          simp [registerHandlers, actionEntries, firstFatal, hmem, hpol]
        | none =>
          simp [registerHandlers, actionEntries, firstFatal, seenAfter, dedupKeys,
            hmem, hpol, ih]
      · simp only [registerHandlers, actionEntries, firstFatal, seenAfter, dedupKeys,
          RouteEntry.key_mk, hmem, if_neg, if_false, ite_false]
        rw [ih]
        simp

mutual

theorem traverseB_eq (policy : String → Option String) (n : Node H) (pre : String)
    (chain : List (H → H)) (st : BuildSt H) :
    traverseB policy n pre chain st =
      match firstFatal policy (compiledEntries n pre chain) st.registered with
      | some e => .error e
      | none =>
        .ok ⟨seenAfter (compiledEntries n pre chain) st.registered,
             st.routes ++ dedupKeys st.registered (compiledEntries n pre chain)⟩ := by
  cases n with
  | mk p actions children =>
    rw [traverseB, registerHandlers_eq]
    cases hff : firstFatal policy
        (actionEntries actions pre (chain ++ nodeMiddlewares actions)) st.registered with
    | some e =>
      simp [compiledEntries, firstFatal_append, hff]
    | none =>
      dsimp only
      rw [traverseKids_eq]
      simp [compiledEntries, firstFatal_append, seenAfter_append, dedupKeys_append, hff,
        List.append_assoc]

theorem traverseKids_eq (policy : String → Option String) (cs : List (Node H)) (pre : String)
    (chain : List (H → H)) (st : BuildSt H) :
    traverseKids policy cs pre chain st =
      match firstFatal policy (kidsEntries cs pre chain) st.registered with
      | some e => .error e
      | none =>
        .ok ⟨seenAfter (kidsEntries cs pre chain) st.registered,
             st.routes ++ dedupKeys st.registered (kidsEntries cs pre chain)⟩ := by
  cases cs with
  | nil => simp [traverseKids, kidsEntries, firstFatal, seenAfter, dedupKeys]
  | cons c rest =>
    rw [traverseKids, traverseB_eq]
    cases hff : firstFatal policy
        (compiledEntries c (pathJoin pre c.pat) chain) st.registered with
    | some e =>
      simp [kidsEntries, firstFatal_append, hff]
    | none =>
      dsimp only
      rw [traverseKids_eq]
      simp [kidsEntries, firstFatal_append, seenAfter_append, dedupKeys_append, hff,
        List.append_assoc]

end

/-- The build result, in closed form: either the error of the first fatal
conflict in depth-first pre-order, or the dispatcher whose table keeps the
first resolution of each route key and whose fallback is the builder's
configured (or default) not-found handler. -/
theorem build_eq (b : Builder H) :
    b.build =
      match firstFatal b.onConflict (compiledEntries b.node "/" []) [] with
      | some e => .error e
      | none =>
        .ok ⟨dedupKeys [] (compiledEntries b.node "/" []), b.notFoundHandler⟩ := by
  rw [Builder.build, traverseB_eq]
  cases hff : firstFatal b.onConflict (compiledEntries b.node "/" []) [] with
  | some e => simp [hff]
  | none => simp [hff]

theorem registerHandlers_factor (policy : String → Option String) (acts : List (Action H))
    (pre : String) (chain : List (H → H)) (st : BuildSt H) :
    registerHandlers policy acts pre chain st
      = registerTriples policy (handlersOf acts) pre chain st := by
  induction acts generalizing st with
  | nil => rfl
  | cons a rest ih =>
    cases a with
    | mw m => simpa [registerHandlers, handlersOf] using ih st
    | handler method pat h =>
      simp only [registerHandlers, handlersOf, registerTriples]
      by_cases hmem : (method ++ " " ++ pathJoin pre pat) ∈ st.registered
      · cases hpol : policy (method ++ " " ++ pathJoin pre pat) <;> simp [hmem, hpol, ih]
      · simp [hmem, ih]

mutual

theorem traverseB_congr (policy : String → Option String) (n n2 : Node H)
    (he : NodeEquiv n n2) (pre : String) (chain : List (H → H)) (st : BuildSt H) :
    traverseB policy n pre chain st = traverseB policy n2 pre chain st := by
  cases n with
  | mk p as cs =>
    cases n2 with
    | mk q bs ds =>
      obtain ⟨hp, hmw, hh, hkids⟩ := he
      rw [traverseB, traverseB, hmw, registerHandlers_factor, registerHandlers_factor, hh]
      cases registerTriples policy (handlersOf bs) pre (chain ++ nodeMiddlewares bs) st with
      | error e => rfl
      | ok st1 => exact traverseKids_congr policy cs ds hkids pre _ st1

theorem traverseKids_congr (policy : String → Option String) (cs ds : List (Node H))
    (he : NodesEquiv cs ds) (pre : String) (chain : List (H → H)) (st : BuildSt H) :
    traverseKids policy cs pre chain st = traverseKids policy ds pre chain st := by
  cases cs with
  | nil =>
    cases ds with
    | nil => rfl
    | cons d ds2 => exact he.elim
  | cons c cs2 =>
    cases ds with
    | nil => exact he.elim
    | cons d ds2 =>
      obtain ⟨h1, h2⟩ := he
      have hpat : c.pat = d.pat := by
        cases c with
        | mk cp cas ccs =>
          cases d with
          | mk dp das dcs => exact h1.1
      rw [traverseKids, traverseKids, hpat, traverseB_congr policy c d h1]
      cases traverseB policy d (pathJoin pre d.pat) chain st with
      | error e => rfl
      | ok st2 => exact traverseKids_congr policy cs2 ds2 h2 pre chain st2

end

/-! ## Claims -/

/-- C1.  Order independence: if two configuration trees agree scopewise on
the sequence of middleware registrations and on the sequence of handler
registrations — the interleaving of the two kinds inside each scope being
arbitrary — and the builders carry the same fallback and conflict policy,
then `Build` returns equal results, so the dispatchers behave identically
on every request: each compiled route's effective chain is the ancestor
middlewares in root-to-node order followed by the node's own middlewares
in declared order, whatever the interleaving was. -/
theorem build_order_independence (b b2 : Builder H)
    (hnode : NodeEquiv b.node b2.node)
    (hnf : b.notFoundHandler = b2.notFoundHandler)
    (hpol : b.onConflict = b2.onConflict) :
    b.build = b2.build ∧
      ∀ method path d d2, b.build = .ok d → b2.build = .ok d2 →
        d.dispatch method path = d2.dispatch method path := by
  have hb : b.build = b2.build := by
    rw [Builder.build, Builder.build, hnf, hpol,
      traverseB_congr b2.onConflict b.node b2.node hnode]
  refine ⟨hb, ?_⟩
  intro method path d d2 h1 h2
  rw [hb] at h1
  rw [h1] at h2
  injection h2 with h3
  rw [h3]

/-- C1 witness: registering the handler before the middleware in the same
scope builds the same dispatcher as registering the middleware first. -/
theorem build_order_independence_witness :
    ((newBuilder (H := Nat)).get "/h" 1 |>.use Nat.succ).build
      = ((newBuilder (H := Nat)).use Nat.succ |>.get "/h" 1).build :=
  (build_order_independence ((newBuilder (H := Nat)).get "/h" 1 |>.use Nat.succ)
    ((newBuilder (H := Nat)).use Nat.succ |>.get "/h" 1)
    ⟨rfl, rfl, rfl, trivial⟩ rfl rfl).1

/-- C2 counterexample: in the scope registering `mwDouble` then `mwInc`,
the compiled route's final handler maps request 5 to 11 = (2·5)+1 — the
chain's FIRST entry `mwDouble` saw the request first.  Wrapping so that
the chain's last entry were the outermost wrapper would map 5 to
12 = 2·(5+1).  So the final handler is not the last-entry-outermost wrap
of the raw handler: the claim fails on this input. -/
theorem build_last_outermost_counterexample :
    (((newBuilder (H := Nat → Nat)).use mwDouble |>.use mwInc |>.get "/h" id).build.map
        (fun d => dispatchApply d "GET" "/h" 5)) = .ok (some 11)
    ∧ applyChainLastOutermost [mwDouble, mwInc] id 5 = 12
    ∧ ¬ ∀ (chain : List ((Nat → Nat) → (Nat → Nat))) (raw : Nat → Nat),
        applyChain chain raw = applyChainLastOutermost chain raw := by
  refine ⟨rfl, rfl, fun hall => ?_⟩
  have h5 := congrFun (hall [mwDouble, mwInc] id) 5
  simp [applyChain, applyChainLastOutermost, mwDouble, mwInc] at h5

/-- C2 amended: a compiled route's final handler wraps the raw handler
with its effective chain applied so that the chain's FIRST entry is the
outermost wrapper (it sees the request first) and the chain's last entry
is the innermost, applied directly around the raw handler. -/
theorem build_first_entry_outermost (m1 m2 : H → H) (chain : List (H → H)) (raw : H) :
    ((newBuilder (H := H)).use m1 |>.use m2 |>.get "/h" raw).build
      = .ok ⟨[⟨"GET", "/h", m1 (m2 raw)⟩], none⟩
    ∧ applyChain (m1 :: chain) raw = m1 (applyChain chain raw)
    ∧ applyChain (chain ++ [m1]) raw = applyChain chain (m1 raw) := by
  refine ⟨rfl, rfl, ?_⟩
  simp [applyChain, List.foldr_append]

/-- C3: for scopes Parent (middleware `mp`) containing Child (middleware
`mc`) containing a handler, the compiled final handler is `mp (mc raw)`:
the parent middleware wraps outside the child middleware, so `mp` sees
the request before `mc` does. -/
theorem nested_scopes_parent_outside_child (pp cp hp : String) (mp mc : H → H) (raw : H) :
    ((newBuilder (H := H)).route pp (fun pb =>
        (pb.use mp).route cp (fun cb => (cb.use mc).get hp raw))).build
      = .ok ⟨[⟨"GET",
            pathJoin (pathJoin (pathJoin "/" pp) cp) (if hp = "/" then "/\x7b$\x7d" else hp),
            mp (mc raw)⟩], none⟩ := by
  simp [Builder.build, Builder.route, Builder.use, Builder.get, Builder.registerHandler,
    newBuilder, nodeAddAction, nodeAddChild, traverseB, traverseKids, registerHandlers,
    nodeMiddlewares, applyChain, Node.pat]

/-- C6: registering the literal root path stores the end-anchored root
pattern, which matches exactly the root path and nothing else: a request
for any other path falls back. -/
theorem root_exact_match (h : H) (p : String) (hp : p ≠ "/") :
    ((newBuilder (H := H)).get "/" h).build
        = .ok ⟨[⟨"GET", "/\x7b$\x7d", h⟩], none⟩
    ∧ Dispatcher.dispatch ⟨[⟨"GET", "/\x7b$\x7d", h⟩], none⟩ "GET" "/" = .route h
    ∧ Dispatcher.dispatch ⟨[⟨"GET", "/\x7b$\x7d", h⟩], none⟩ "GET" p = .fallback none := by
  refine ⟨rfl, rfl, ?_⟩
  have hm : entryMatches "GET" p (⟨"GET", "/\x7b$\x7d", h⟩ : RouteEntry H) = (p == "/") := rfl
  have hb : (p == "/") = false := beq_eq_false_iff_ne.mpr hp
  simp [Dispatcher.dispatch, findRoute, List.find?, hm, hb]

/-- C7: full patterns concatenate scope prefixes with `path.Join` down the
tree (the root prefix being the path separator): a handler at `/items`
inside `/v1` inside `/api` is compiled at — and dispatchable only at —
`/api/v1/items`; arbitrary segments concatenate the same way. -/
theorem path_concatenation (h : H) (p s1 s2 lp : String) (hh : H) :
    ((newBuilder (H := H)).route "/api" (fun b1 =>
        b1.route "/v1" (fun b2 => b2.get "/items" h))).build
      = .ok ⟨[⟨"GET", "/api/v1/items", h⟩], none⟩
    ∧ (Dispatcher.dispatch ⟨[⟨"GET", "/api/v1/items", h⟩], none⟩ "GET" p = .route h
        ↔ p = "/api/v1/items")
    ∧ ((newBuilder (H := H)).route s1 (fun b1 =>
          b1.route s2 (fun b2 => b2.registerHandler "GET" lp hh))).build
        = .ok ⟨[⟨"GET",
              pathJoin (pathJoin (pathJoin "/" s1) s2) (if lp = "/" then "/\x7b$\x7d" else lp),
              hh⟩], none⟩ := by
  refine ⟨rfl, ?_, ?_⟩
  · have hm : entryMatches "GET" p (⟨"GET", "/api/v1/items", h⟩ : RouteEntry H)
        = (p == "/api/v1/items") := rfl
    constructor
    · intro hd
      by_cases hpe : p = "/api/v1/items"
      · exact hpe
      · have hb : (p == "/api/v1/items") = false := beq_eq_false_iff_ne.mpr hpe
        simp [Dispatcher.dispatch, findRoute, List.find?, hm, hb] at hd
    · intro hpe
      subst hpe
      rfl
  · simp [Builder.build, Builder.route, Builder.registerHandler, newBuilder, nodeAddAction,
      nodeAddChild, traverseB, traverseKids, registerHandlers, nodeMiddlewares, applyChain,
      Node.pat]

theorem firstFatal_constant_none (l : List (RouteEntry H)) (seen : List String) :
    firstFatal (fun _ => none) l seen = none := by
  induction l generalizing seen with
  | nil => rfl
  | cons e rest ih => by_cases hmem : e.key ∈ seen <;> simp [firstFatal, hmem, ih]

theorem append_space_inj (a : List Char) (x : List Char) (b y : List Char)
    (ha : ' ' ∉ a) (hb : ' ' ∉ b)
    (heq : a ++ ' ' :: x = b ++ ' ' :: y) : a = b ∧ x = y := by
  induction a generalizing b with
  | nil =>
    cases b with
    | nil => simpa using heq
    | cons c bs =>
      simp only [List.nil_append, List.cons_append, List.cons.injEq] at heq
      exact absurd (heq.1 ▸ List.mem_cons_self c bs) (heq.1 ▸ hb)
  | cons c as ih =>
    cases b with
    | nil =>
      simp only [List.cons_append, List.nil_append, List.cons.injEq] at heq
      exact absurd (heq.1 ▸ List.mem_cons_self c as) (heq.1 ▸ ha)
    | cons d bs =>
      simp only [List.cons_append, List.cons.injEq] at heq
      obtain ⟨hcd, htail⟩ := heq
      have hres := ih bs (fun hmem => ha (List.mem_cons_of_mem c hmem))
        (fun hmem => hb (List.mem_cons_of_mem d hmem)) htail
      exact ⟨by rw [hcd, hres.1], hres.2⟩

/-- A route key determines method and pattern, provided the method contains
no space (true of every method the API registers: GET, POST, PUT, DELETE,
PATCH) — which is also exactly how `ServeMux` parses the key it is handed. -/
theorem key_inj (e1 e2 : RouteEntry H)
    (h1 : ' ' ∉ e1.method.data) (h2 : ' ' ∉ e2.method.data)
    (hk : e1.key = e2.key) : e1.method = e2.method ∧ e1.pat = e2.pat := by
  have hdata : e1.method.data ++ ' ' :: e1.pat.data = e2.method.data ++ ' ' :: e2.pat.data := by
    have hcd := congrArg String.data hk
    simpa [RouteEntry.key, String.data_append] using hcd
  obtain ⟨hmeth, hpat⟩ := append_space_inj e1.method.data e1.pat.data e2.method.data
    e2.pat.data h1 h2 hdata
  constructor
  · cases e1m : e1.method with
    | mk d1 => cases e2m : e2.method with
      | mk d2 =>
        have : d1 = d2 := by
          have := hmeth
          rw [e1m, e2m] at this
          exact this
        rw [this]
  · cases e1p : e1.pat with
    | mk d1 => cases e2p : e2.pat with
      | mk d2 =>
        have : d1 = d2 := by
          have := hpat
          rw [e1p, e2p] at this
          exact this
        rw [this]

theorem find?_dedupKeys (p : RouteEntry H → Bool) (l : List (RouteEntry H))
    (seen : List String)
    (hkey : ∀ e1 ∈ l, ∀ e2 ∈ l, e1.key = e2.key → p e1 = p e2)
    (hseen : ∀ e ∈ l, e.key ∈ seen → p e = false) :
    (dedupKeys seen l).find? p = l.find? p := by
  induction l generalizing seen with
  | nil => rfl
  | cons e rest ih =>
    have hkey2 : ∀ e1 ∈ rest, ∀ e2 ∈ rest, e1.key = e2.key → p e1 = p e2 :=
      fun e1 he1 e2 he2 =>
        hkey e1 (List.mem_cons_of_mem e he1) e2 (List.mem_cons_of_mem e he2)
    by_cases hmem : e.key ∈ seen
    · have hpe : p e = false := hseen e (List.mem_cons_self e rest) hmem
      rw [dedupKeys, if_pos hmem]
      rw [ih seen hkey2 (fun e2 he2 => hseen e2 (List.mem_cons_of_mem e he2))]
      simp [List.find?, hpe]
    · rw [dedupKeys, if_neg hmem]
      cases hpe : p e with
      | true => simp [List.find?, hpe]
      | false =>
        simp only [List.find?, hpe]
        apply ih (e.key :: seen) hkey2
        intro e2 he2 hs
        rcases List.mem_cons.mp hs with hsk | hsk
        · rw [hkey e2 (List.mem_cons_of_mem e he2) e (List.mem_cons_self e rest) hsk]
          exact hpe
        · exact hseen e2 (List.mem_cons_of_mem e he2) hsk

/-- C4: `Build` either aborts with exactly the error of the first fatal
conflict in depth-first pre-order — a handler resolution whose route key
was already registered and on which the policy errs — returning no
dispatcher, or, when no policy invocation errs, returns a complete
dispatcher and no error. -/
theorem build_failure_semantics (b : Builder H) :
    (∀ e, firstFatal b.onConflict (compiledEntries b.node "/" []) [] = some e →
      b.build = .error e)
    ∧ (firstFatal b.onConflict (compiledEntries b.node "/" []) [] = none →
      b.build = .ok ⟨dedupKeys [] (compiledEntries b.node "/" []), b.notFoundHandler⟩) := by
  constructor
  · intro e he
    rw [build_eq, he]
  · intro hnone
    rw [build_eq, hnone]

/-- C4 witness: with an erroring conflict policy, registering `GET /x`
twice makes `Build` return exactly the error for `"GET /x"`. -/
theorem build_failure_semantics_witness :
    ((({ newBuilder with onConflict := fun k => some ("conflict: " ++ k) } :
        Builder Nat).get "/x" 1).get "/x" 2).build
      = .error "conflict: GET /x" :=
  (build_failure_semantics ((({ newBuilder with
      onConflict := fun k => some ("conflict: " ++ k) } :
    Builder Nat).get "/x" 1).get "/x" 2)).1 "conflict: GET /x" rfl

/-- C5: under the default (constant-proceed) conflict policy `Build`
always succeeds; the route table keeps, for each route key, the first
resolution in traversal order — duplicates, from whatever tree path, are
discarded purely by resolved key — and dispatching finds exactly what the
full (undeduplicated) resolution sequence would find first, so a
duplicated key always invokes the first-registered handler. -/
theorem conflict_default_first_wins (b : Builder H)
    (hpol : b.onConflict = fun _ => none)
    (hm : ∀ e ∈ compiledEntries b.node "/" [], ' ' ∉ e.method.data) :
    b.build = .ok ⟨dedupKeys [] (compiledEntries b.node "/" []), b.notFoundHandler⟩
    ∧ ∀ method path,
        findRoute (dedupKeys [] (compiledEntries b.node "/" [])) method path
          = findRoute (compiledEntries b.node "/" []) method path := by
  constructor
  · rw [build_eq, hpol, firstFatal_constant_none]
  · intro method path
    apply find?_dedupKeys
    · intro e1 he1 e2 he2 hk
      obtain ⟨hmeq, hpeq⟩ := key_inj e1 e2 (hm e1 he1) (hm e2 he2) hk
      simp [entryMatches, hmeq, hpeq]
    · intro e _ hmem
      exact absurd hmem (List.not_mem_nil e.key)

/-- C5 witness: `GET /api/x` registered directly and again through the
nested scope `/api` + `/x`; the default-policy build keeps the first
handler only. -/
theorem conflict_default_first_wins_witness :
    ((newBuilder (H := Nat)).get "/api/x" 1
        |>.route "/api" (fun c => c.get "/x" 2)).build
      = .ok ⟨[⟨"GET", "/api/x", 1⟩], none⟩ :=
  (conflict_default_first_wins
    ((newBuilder (H := Nat)).get "/api/x" 1 |>.route "/api" (fun c => c.get "/x" 2))
    rfl (by decide)).1

/-- C6 witness: a request for `/anything` does not hit the compiled root
route; it falls back. -/
theorem root_exact_match_witness :
    Dispatcher.dispatch ⟨[⟨"GET", "/\x7b$\x7d", (0 : Nat)⟩], none⟩ "GET" "/anything"
      = .fallback none :=
  (root_exact_match (0 : Nat) "/anything" (by decide)).2.2

/-- C7 witness: the doubly nested scope serves `GET /api/v1/items`. -/
theorem path_concatenation_witness :
    Dispatcher.dispatch ⟨[⟨"GET", "/api/v1/items", (0 : Nat)⟩], none⟩ "GET" "/api/v1/items"
      = .route 0 :=
  ((path_concatenation (0 : Nat) "/api/v1/items" "/a" "/b" "/c" 1).2.1).mpr rfl

/-- C8: a request matching no compiled route invokes exactly the fallback
(the caller-supplied handler, or the built-in default when none was set),
a request matching some compiled route never invokes the fallback, and an
empty tree builds successfully with an empty route table, so every
request falls back. -/
theorem fallback_correctness (b : Builder H) (d : Dispatcher H)
    (hb : b.build = .ok d) (method path : String) :
    ((∀ e ∈ d.routes, entryMatches method path e = false) →
        d.dispatch method path = .fallback b.notFoundHandler)
    ∧ (∀ e ∈ d.routes, entryMatches method path e = true →
        ∀ fb, d.dispatch method path ≠ .fallback fb)
    ∧ (newBuilder (H := H)).build = .ok ⟨[], none⟩
    ∧ (∀ m2 p2, Dispatcher.dispatch (⟨[], none⟩ : Dispatcher H) m2 p2 = .fallback none) := by
  have hfall : d.fallback = b.notFoundHandler := by
    rw [build_eq] at hb
    cases hff : firstFatal b.onConflict (compiledEntries b.node "/" []) [] with
    | some e =>
      rw [hff] at hb
      simp at hb
    | none =>
      rw [hff] at hb
      have hinj := (Except.ok.injEq _ _).mp hb
      rw [← hinj]
  refine ⟨?_, ?_, rfl, fun m2 p2 => rfl⟩
  · intro hnone
    have hfr : findRoute d.routes method path = none := by
      rw [findRoute, List.find?_eq_none]
      intro e he
      simp [hnone e he]
    simp [Dispatcher.dispatch, hfr, hfall]
  · intro e he hme fb hcontra
    cases hfr : findRoute d.routes method path with
    | some e2 => simp [Dispatcher.dispatch, hfr] at hcontra
    | none =>
      rw [findRoute, List.find?_eq_none] at hfr
      exact hfr e he (by simp [hme])

/-- C8 witness: with only `GET /x` compiled, `GET /y` invokes the
(default) fallback. -/
theorem fallback_correctness_witness :
    Dispatcher.dispatch ⟨[⟨"GET", "/x", (1 : Nat)⟩], none⟩ "GET" "/y" = .fallback none :=
  (fallback_correctness ((newBuilder (H := Nat)).get "/x" 1) ⟨[⟨"GET", "/x", 1⟩], none⟩ rfl
    "GET" "/y").1 (by decide)

/-- C9: a `Build` step in a configuration session mutates nothing —
deleting it leaves the final builder state unchanged — and the dispatcher
it records is exactly the compile of the tree as it stood at that moment,
unaffected by whatever mutations (or further builds) follow; each later
`Build` compiles the then-current tree. -/
theorem build_pure_snapshot (b : Builder H) (ops1 ops2 : List (Op H)) :
    (runOps (ops1 ++ Op.build :: ops2) b).1 = (runOps (ops1 ++ ops2) b).1
    ∧ (runOps (ops1 ++ Op.build :: ops2) b).2
        = (runOps ops1 b).2
            ++ (runOps ops1 b).1.build :: (runOps ops2 (runOps ops1 b).1).2 := by
  induction ops1 generalizing b with
  | nil => exact ⟨rfl, rfl⟩
  | cons op rest ih =>
    have ih1 := fun b2 => (ih (b := b2)).1
    have ih2 := fun b2 => (ih (b := b2)).2
    cases op <;> exact ⟨by simp [runOps, ih1], by simp [runOps, ih1, ih2]⟩

/-- C10: `NotFound` (or a conflict-policy change) applied to the child
`Builder` that `Route`/`Group` hand to a configure closure has no effect
on the root build — only the child's node is kept — and the fallback of a
dispatcher built from the root is exactly the root builder's configured
handler (`none` = the built-in default). -/
theorem notFound_on_child_scope_no_effect (b : Builder H) (pat : String)
    (f : Builder H → Builder H) (h : H) (q : String → Option String) :
    (b.route pat (fun cb => Builder.notFound (f cb) h)).build = (b.route pat f).build
    ∧ (b.group (fun cb => Builder.notFound (f cb) h)).build = (b.group f).build
    ∧ (b.route pat (fun cb => { f cb with onConflict := q })).build = (b.route pat f).build
    ∧ (∀ d, (b.route pat f).build = .ok d → d.fallback = b.notFoundHandler) := by
  refine ⟨rfl, rfl, rfl, ?_⟩
  intro d hd
  rw [build_eq] at hd
  cases hff : firstFatal (b.route pat f).onConflict
      (compiledEntries (b.route pat f).node "/" []) [] with
  | some e =>
    rw [hff] at hd
    simp at hd
  | none =>
    rw [hff] at hd
    have hinj := (Except.ok.injEq _ _).mp hd
    rw [← hinj]
    rfl

/-- C10 witness: the dispatcher built after a child scope set its own
`NotFound` still carries the root's fallback. -/
theorem notFound_on_child_scope_no_effect_witness :
    (Dispatcher.mk ([] : List (RouteEntry Nat)) (some 5)).fallback = some 5 :=
  (notFound_on_child_scope_no_effect ((newBuilder (H := Nat)).notFound 5) "/a" id 7
    (fun _ => none)).2.2.2 ⟨[], some 5⟩ rfl

end Rakuda
